import Mathlib

/-!
A shallow embedding of the multipart/form-data streaming encoder of
rust-hyper-multipart-rfc7578 (file src/client_.rs), together with
theorems checking the specification claims against it.

Byte streams are modelled as lists of characters.  A readable content
source is modelled as the list of results of its successive read
calls; once the list is exhausted every further read returns zero
bytes, which the encoder interprets as end of the source.
-/

namespace Multipart

abbrev Bytes := List Char

/-- One result of a read call on a content source: some data (an empty
list means a zero-byte read, which the encoder treats as end of the
source), or an input error. -/
inductive ReadResult where
  | ok (d : Bytes)
  | err
deriving DecidableEq, Repr

/-- A readable content source: the successive results of its read calls. -/
abbrev Reader := List ReadResult

/-- One read call on a source: the data read together with the remaining
source, or, on error, the remaining source alone. -/
def readOnce : Reader → Except Reader (Bytes × Reader)
  | [] => .ok ([], [])
  | .ok d :: tl => .ok (d, tl)
  | .err :: tl => .error tl

/-- The content of one part: a byte-readable source, or embedded text
(enum Inner of the source). -/
inductive Inner where
  | Read (rd : Reader)
  | Text (s : String)
deriving DecidableEq, Repr

/-- Default Content-Type value per kind of content
(Inner::default_content_type in the source). -/
def Inner.default_content_type : Inner → String
  | .Read _ => "application/octet-stream"
  | .Text _ => "text/plain"

/-- One part of a multipart body (struct Part of the source). -/
structure Part where
  inner : Inner
  content_type : String
  content_disposition : String
deriving DecidableEq, Repr

/-- Part::new of the source: builds the content type (explicit mime or
default) and the content disposition from name and optional filename. -/
def Part.new (inner : Inner) (name : String) (mime : Option String)
    (filename : Option String) : Part :=
  let disposition_params : List String := ["name=\"" ++ name ++ "\""]
  let disposition_params := disposition_params ++
    (match filename with
     | some f => ["filename=\"" ++ f ++ "\""]
     | none => [])
  let content_type := mime.getD inner.default_content_type
  { inner, content_type,
    content_disposition := "form-data; " ++ String.intercalate "; " disposition_params }

/-- A form: ordered parts plus the message boundary (struct Form). -/
structure Form where
  parts : List Part
  boundary : String
deriving DecidableEq, Repr

/-- Form::add_text of the source. -/
def Form.add_text (form : Form) (name : String) (text : String) : Form :=
  { form with parts := form.parts ++ [Part.new (Inner.Text text) name none none] }

/-- Form::add_reader of the source. -/
def Form.add_reader (form : Form) (name : String) (rd : Reader) : Form :=
  { form with parts := form.parts ++ [Part.new (Inner.Read rd) name none none] }

/-- Form::add_reader_file of the source. -/
def Form.add_reader_file (form : Form) (name : String) (rd : Reader)
    (filename : String) : Form :=
  { form with parts := form.parts ++ [Part.new (Inner.Read rd) name none (some filename)] }

/-- Form::add_reader_file_with_mime of the source. -/
def Form.add_reader_file_with_mime (form : Form) (name : String) (rd : Reader)
    (filename : String) (mime : String) : Form :=
  { form with
    parts := form.parts ++ [Part.new (Inner.Read rd) name (some mime) (some filename)] }

/-- An I/O error value: a kind and a message. -/
structure IoErr where
  kind : String
  msg : String
deriving DecidableEq, Repr

/-- The invalid-input error built when a path is not a regular file. -/
def invalidInputErr : IoErr := ⟨"InvalidInput", "expected a file not directory"⟩

deriving instance DecidableEq for Except

/-- Model of a filesystem path as the encoder sees it: whether opening
succeeds (and the error when it does not), the metadata result (whether
the path is a regular file, or a metadata error), the optional
extension, the full path string, and the bytes of the opened file. -/
structure PathM where
  openOk : Bool
  openErr : IoErr
  meta : Except IoErr Bool
  ext : Option String
  pathStr : String
  contents : Reader
deriving DecidableEq, Repr

/-- Form::_add_file of the source.  The extension-to-mime collaborator
(Mime::from_str on the extension) is the parameter lookup.  Returns the
operation result together with the (possibly updated) form, modelling
the mutable receiver. -/
def Form._add_file (lookup : String → Option String) (form : Form) (name : String)
    (p : PathM) (mime : Option String) : Except IoErr Unit × Form :=
  if p.openOk = false then (.error p.openErr, form)
  else
    let mime := match p.ext with
      | some ext => lookup ext
      | none => mime
    match p.meta with
    | .ok false => (.error invalidInputErr, form)
    | .error e => (.error e, form)
    | .ok true =>
      (.ok (),
       { form with
         parts := form.parts ++
           [Part.new (Inner.Read p.contents) name mime (some p.pathStr)] })

/-- Form::add_file of the source. -/
def Form.add_file (lookup : String → Option String) (form : Form) (name : String)
    (p : PathM) : Except IoErr Unit × Form :=
  Form._add_file lookup form name p none

/-- Form::add_file_with_mime of the source. -/
def Form.add_file_with_mime (lookup : String → Option String) (form : Form)
    (name : String) (p : PathM) (mime : String) : Except IoErr Unit × Form :=
  Form._add_file lookup form name p (some mime)

/-- The streaming body (struct Body of the source): scratch-buffer size,
the active reader when a part is mid-stream, the remaining parts, and
the boundary. -/
structure Body where
  buf_size : Nat
  current : Option Reader
  parts : List Part
  boundary : String
deriving DecidableEq, Repr

/-- From Form for Body in the source. -/
def Body.fromForm (form : Form) : Body :=
  ⟨2048, none, form.parts, form.boundary⟩

/-- The CRLF byte pair. -/
def crlf : Bytes := '\r' :: '\n' :: []

/-- Two hyphens. -/
def dashdash : Bytes := '-' :: '-' :: []

/-- Body::write_boundary of the source: CRLF, two hyphens, the boundary. -/
def boundaryBytes (boundary : String) : Bytes :=
  crlf ++ dashdash ++ boundary.data

/-- Body::write_final_boundary of the source: a boundary line followed
by two hyphens. -/
def finalBoundaryBytes (boundary : String) : Bytes :=
  boundaryBytes boundary ++ dashdash

/-- Body::write_headers of the source: CRLF, the Content-Type line,
CRLF, the Content-Disposition line, CRLF, CRLF. -/
def headersBytes (p : Part) : Bytes :=
  crlf ++ ("Content-Type: " ++ p.content_type).data ++ crlf ++
    ("Content-Disposition: " ++ p.content_disposition).data ++ crlf ++ crlf

/-- The reader the encoder installs for a part when it starts it: a byte
source as is; for text, a cursor that yields all bytes of the string on
its first read. -/
def readerOf : Inner → Reader
  | .Read rd => rd
  | .Text s => [.ok s.data]

/-- The error type of the streaming encoder (enum Error of the crate).
Writes go into an in-memory buffer and cannot fail in the model, so
only ContentRead ever arises. -/
inductive Error where
  | BoundaryWrite
  | HeaderWrite
  | ContentRead
deriving DecidableEq, Repr

/-- The result of one pull on the encoder: end of stream, one chunk of
bytes, or an error. -/
inductive PollR where
  | ready_none
  | ready_chunk (c : Bytes)
  | ready_err (e : Error)
deriving DecidableEq, Repr

/-- The branch of Body::poll_next that runs with no active reader: pop
the next part, write its boundary and header block into a fresh buffer,
install its reader and read once.  A zero-byte first read with further
parts remaining recurses with a fresh buffer, exactly as the source
does, discarding the bytes already written. -/
def pollParts (n : Nat) (boundary : String) : List Part → PollR × Body
  | [] => (.ready_none, ⟨n, none, [], boundary⟩)
  | part :: rest =>
    let w := boundaryBytes boundary ++ headersBytes part
    match readOnce (readerOf part.inner) with
    | .error rd => (.ready_err .ContentRead, ⟨n, some rd, rest, boundary⟩)
    | .ok (d, rd) =>
      if d = [] then
        if rest = [] then
          (.ready_chunk (w ++ finalBoundaryBytes boundary), ⟨n, none, [], boundary⟩)
        else
          pollParts n boundary rest
      else
        (.ready_chunk (w ++ d), ⟨n, some rd, rest, boundary⟩)

/-- Body::poll_next of the source: one pull on the encoder. -/
def poll_next (b : Body) : PollR × Body :=
  match b.current with
  | none => pollParts b.buf_size b.boundary b.parts
  | some rd =>
    match readOnce rd with
    | .error rd => (.ready_err .ContentRead, { b with current := some rd })
    | .ok (d, rd) =>
      if d = [] then
        match b.parts with
        | [] => (.ready_chunk (finalBoundaryBytes b.boundary), { b with current := none })
        | part :: rest => pollParts b.buf_size b.boundary (part :: rest)
      else
        (.ready_chunk d, { b with current := some rd })

/-- Pull the encoder repeatedly, concatenating the chunks, until end of
stream (second component true), an error, or the fuel runs out (second
component false). -/
def pullAll : Nat → Body → Bytes × Bool
  | 0, _ => ([], false)
  | Nat.succ fuel, b =>
    match poll_next b with
    | (.ready_none, _) => ([], true)
    | (.ready_err _, _) => ([], false)
    | (.ready_chunk c, b') =>
      let r := pullAll fuel b'
      (c ++ r.1, r.2)

/-- Fuel that always suffices to drive a body to completion: one unit
per read result per source plus bookkeeping. -/
def partsWeight (ps : List Part) : Nat :=
  (ps.map (fun p => (readerOf p.inner).length + 2)).sum

/-- Fuel bound for a body. -/
def bodyFuel (b : Body) : Nat :=
  (match b.current with
   | none => 0
   | some rd => rd.length + 1) + partsWeight b.parts + 2

/-- Drive the encoder built from a form to completion: the concatenated
emitted bytes, and whether end of stream was reached cleanly. -/
def encode (form : Form) : Bytes × Bool :=
  pullAll (bodyFuel (Body.fromForm form)) (Body.fromForm form)

/-- The bytes a source yields before signalling end of stream: the
concatenation of the data of its reads up to the first zero-byte read;
none when a read errors before end of stream is reached. -/
def yielded : Reader → Option Bytes
  | [] => some []
  | .err :: _ => none
  | .ok d :: tl => if d = [] then some [] else (yielded tl).map (fun bs => d ++ bs)

/-- The content bytes of a part, as its source yields them. -/
def content (p : Part) : Bytes :=
  (yielded (readerOf p.inner)).getD []

/-- The boundary-plus-header block written immediately before the
content of a part. -/
def partBlock (boundary : String) (p : Part) : Bytes :=
  boundaryBytes boundary ++ headersBytes p

/-- The canonical RFC 7578 layout for a list of parts: for each part in
order its boundary line, header block and content, then the terminal
boundary. -/
def wireFormat (boundary : String) (ps : List Part) : Bytes :=
  (ps.map (fun p => partBlock boundary p ++ content p)).flatten ++ finalBoundaryBytes boundary

/-- A source is well behaved when it yields its bytes and reaches end of
stream without error. -/
def goodPart (p : Part) : Bool :=
  (yielded (readerOf p.inner)).isSome

/-- All parts of the list have well-behaved sources, and every part
except possibly the last yields at least one byte. -/
def goodTail : List Part → Bool
  | [] => true
  | p :: rest =>
    goodPart p && (rest.isEmpty || !(content p).isEmpty) && goodTail rest

end Multipart

namespace Multipart

/-! ### Helper lemmas about the model -/

theorem yielded_nil : yielded [] = some [] := rfl

theorem yielded_err (tl : Reader) : yielded (.err :: tl) = none := rfl

theorem yielded_ok_nil (tl : Reader) : yielded (.ok [] :: tl) = some [] := by
  simp [yielded]

theorem yielded_ok_cons (d : Bytes) (tl : Reader) (hd : d ≠ []) :
    yielded (.ok d :: tl) = (yielded tl).map (fun bs => d ++ bs) := by
  simp [yielded, hd]

theorem partsWeight_nil : partsWeight [] = 0 := rfl

theorem partsWeight_cons (p : Part) (rest : List Part) :
    partsWeight (p :: rest) = (readerOf p.inner).length + 2 + partsWeight rest := by
  simp [partsWeight]

theorem wireFormat_nil (β : String) : wireFormat β [] = finalBoundaryBytes β := by
  simp [wireFormat]

theorem wireFormat_cons (β : String) (p : Part) (rest : List Part) :
    wireFormat β (p :: rest) = partBlock β p ++ content p ++ wireFormat β rest := by
  simp [wireFormat, List.append_assoc]

/-- Pulling a finished body (no active reader, no remaining parts)
yields end of stream at once, for any positive fuel. -/
theorem pullAll_done (n : Nat) (β : String) :
    ∀ fuel, 1 ≤ fuel → pullAll fuel ⟨n, none, [], β⟩ = ([], true) := by
  intro fuel h
  cases fuel with
  | zero => omega
  | succ f => simp [pullAll, poll_next, pollParts]

end Multipart

namespace Multipart

/-- One pull from a state whose active reader is at end of stream, with
parts remaining, behaves exactly like a pull with no active reader. -/
theorem pullAll_eof_step (n : Nat) (β : String) (fuel : Nat) (rd rd' : Reader)
    (ps : List Part) (hr : readOnce rd = .ok ([], rd')) (hps : ps ≠ []) :
    pullAll (fuel + 1) ⟨n, some rd, ps, β⟩ = pullAll (fuel + 1) ⟨n, none, ps, β⟩ := by
  have hpoll : poll_next ⟨n, some rd, ps, β⟩ = poll_next ⟨n, none, ps, β⟩ := by
    cases ps with
    | nil => exact absurd rfl hps
    | cons p rest => simp [poll_next, hr]
  simp only [pullAll, hpoll]

/-- The simulation invariant: from a state with an active well-behaved
reader (or, with parts remaining, no active reader), pulling to
completion emits the remaining bytes of the reader followed by the
canonical layout of the remaining parts. -/
theorem pull_sim (n : Nat) (β : String) : ∀ fuel : Nat,
    (∀ rd ps bs, yielded rd = some bs → goodTail ps = true →
        rd.length + partsWeight ps + 2 ≤ fuel →
        pullAll fuel ⟨n, some rd, ps, β⟩ = (bs ++ wireFormat β ps, true))
    ∧ (∀ ps, ps ≠ [] → goodTail ps = true → partsWeight ps + 2 ≤ fuel →
        pullAll fuel ⟨n, none, ps, β⟩ = (wireFormat β ps, true)) := by
  intro fuel
  induction fuel with
  | zero =>
    constructor
    · intro rd ps bs _ _ hw; omega
    · intro ps _ _ hw; omega
  | succ fuel ih =>
    have hnone : ∀ ps, ps ≠ [] → goodTail ps = true → partsWeight ps + 2 ≤ fuel + 1 →
        pullAll (fuel + 1) ⟨n, none, ps, β⟩ = (wireFormat β ps, true) := by
      intro ps hps hg hw
      cases ps with
      | nil => exact absurd rfl hps
      | cons p rest =>
        simp only [goodTail, Bool.and_eq_true] at hg
        obtain ⟨⟨hgp, hlast⟩, hgrest⟩ := hg
        rw [partsWeight_cons] at hw
        -- case analysis on the first read of the source of p
        cases hrd : readerOf p.inner with
        | nil =>
          -- the source is immediately at end of stream: content p = []
          have hcontent : content p = [] := by simp [content, hrd, yielded_nil]
          have hrest : rest = [] := by
            rcases Bool.or_eq_true _ _ |>.mp hlast with h | h
            · exact List.isEmpty_iff.mp h
            · simp [hcontent] at h
          subst hrest
          have hpoll : poll_next ⟨n, none, [p], β⟩ =
              (.ready_chunk (boundaryBytes β ++ headersBytes p ++ finalBoundaryBytes β),
               ⟨n, none, [], β⟩) := by
            simp [poll_next, pollParts, hrd, readOnce]
          simp only [pullAll, hpoll]
          rw [pullAll_done n β fuel (by rw [hrd] at hw; simp [partsWeight_nil] at hw; omega)]
          simp [wireFormat_cons, wireFormat_nil, hcontent, partBlock, List.append_assoc]
        | cons r tl =>
          cases r with
          | err =>
            exfalso
            simp [goodPart, hrd, yielded_err] at hgp
          | ok d =>
            by_cases hd : d = []
            · subst hd
              have hcontent : content p = [] := by simp [content, hrd, yielded_ok_nil]
              have hrest : rest = [] := by
                rcases Bool.or_eq_true _ _ |>.mp hlast with h | h
                · exact List.isEmpty_iff.mp h
                · simp [hcontent] at h
              subst hrest
              have hpoll : poll_next ⟨n, none, [p], β⟩ =
                  (.ready_chunk (boundaryBytes β ++ headersBytes p ++ finalBoundaryBytes β),
                   ⟨n, none, [], β⟩) := by
                simp [poll_next, pollParts, hrd, readOnce]
              simp only [pullAll, hpoll]
              rw [pullAll_done n β fuel (by omega)]
              simp [wireFormat_cons, wireFormat_nil, hcontent, partBlock, List.append_assoc]
            · -- first read yields data d followed by bs' from tl
              have hy : yielded (readerOf p.inner) = (yielded tl).map (fun bs => d ++ bs) := by
                rw [hrd, yielded_ok_cons d tl hd]
              obtain ⟨bs', hbs'⟩ : ∃ bs', yielded tl = some bs' := by
                simp [goodPart, hy, Option.isSome_map] at hgp
                exact Option.isSome_iff_exists.mp (by simpa using hgp)
              have hcontent : content p = d ++ bs' := by
                simp [content, hy, hbs']
              have hpoll : poll_next ⟨n, none, p :: rest, β⟩ =
                  (.ready_chunk (boundaryBytes β ++ headersBytes p ++ d),
                   ⟨n, some tl, rest, β⟩) := by
                simp [poll_next, pollParts, hrd, readOnce, hd]
              simp only [pullAll, hpoll]
              rw [(ih.1) tl rest bs' hbs' hgrest (by rw [hrd] at hw; simp at hw; omega)]
              simp [wireFormat_cons, hcontent, partBlock, List.append_assoc]
    refine ⟨?_, hnone⟩
    intro rd ps bs hy hg hw
    cases rd with
    | nil =>
      have hbs : bs = [] := by simpa [yielded_nil] using hy.symm
      subst hbs
      cases ps with
      | nil =>
        have hpoll : poll_next ⟨n, some [], [], β⟩ =
            (.ready_chunk (finalBoundaryBytes β), ⟨n, none, [], β⟩) := by
          simp [poll_next, readOnce]
        simp only [pullAll, hpoll]
        rw [pullAll_done n β fuel (by omega)]
        simp [wireFormat_nil]
      | cons p rest =>
        rw [pullAll_eof_step n β fuel [] [] (p :: rest) rfl (by simp)]
        exact hnone (p :: rest) (by simp) hg (by simp at hw; omega)
    | cons r tl =>
      cases r with
      | err => simp [yielded_err] at hy
      | ok d =>
        by_cases hd : d = []
        · subst hd
          have hbs : bs = [] := by simpa [yielded_ok_nil] using hy.symm
          subst hbs
          cases ps with
          | nil =>
            have hpoll : poll_next ⟨n, some (.ok [] :: tl), [], β⟩ =
                (.ready_chunk (finalBoundaryBytes β), ⟨n, none, [], β⟩) := by
              simp [poll_next, readOnce]
            simp only [pullAll, hpoll]
            rw [pullAll_done n β fuel (by omega)]
            simp [wireFormat_nil]
          | cons p rest =>
            rw [pullAll_eof_step n β fuel (.ok [] :: tl) tl (p :: rest) rfl (by simp)]
            exact hnone (p :: rest) (by simp) hg (by simp at hw; omega)
        · have hy' : (yielded tl).map (fun bs => d ++ bs) = some bs := by
            rw [← yielded_ok_cons d tl hd]; exact hy
          obtain ⟨bs', hbs', rfl⟩ : ∃ bs', yielded tl = some bs' ∧ bs = d ++ bs' := by
            cases htl : yielded tl with
            | none => simp [htl] at hy'
            | some v => exact ⟨v, rfl, by simpa [htl] using hy'.symm⟩
          have hpoll : poll_next ⟨n, some (.ok d :: tl), ps, β⟩ =
              (.ready_chunk d, ⟨n, some tl, ps, β⟩) := by
            simp [poll_next, readOnce, hd]
          simp only [pullAll, hpoll]
          rw [(ih.1) tl ps bs' hbs' hg (by simp at hw; omega)]
          simp [List.append_assoc]

end Multipart

namespace Multipart

/-- A concrete two-part form with ordinary nonempty text parts. -/
def okForm : Form :=
  ((Form.mk [] "B").add_text "a" "x").add_text "b" "yz"

/-- Claim C1 (amended): for every Form with at least one Part, whose
content sources yield their bytes without error and in which every Part
that yields zero bytes is the final Part, concatenating all chunks
produced by pulling the Encoder to end of stream equals, byte for byte,
the canonical RFC 7578 layout: per Part in insertion order the boundary
line, the Content-Type line, the Content-Disposition line, the blank
line and the content bytes in source order, then the terminal boundary
with no trailing CRLF as the last bytes emitted. -/
theorem encode_eq_wireFormat (form : Form) (h1 : form.parts ≠ [])
    (h2 : goodTail form.parts = true) :
    encode form = (wireFormat form.boundary form.parts, true) := by
  have h := (pull_sim 2048 form.boundary (bodyFuel (Body.fromForm form))).2
    form.parts h1 h2 (by simp [bodyFuel, Body.fromForm])
  simpa [encode, Body.fromForm] using h

/-- Witness for claim C1: the amended theorem applied to a concrete
two-part form. -/
theorem encode_eq_wireFormat_witness :
    encode okForm = (wireFormat okForm.boundary okForm.parts, true) :=
  encode_eq_wireFormat okForm (by decide) (by decide)

/-- A concrete form whose first part yields zero bytes and is not the
last part: the encoder drops the boundary-and-header block of that
part. -/
def dropForm : Form :=
  ((Form.mk [] "B").add_text "a" "").add_text "b" "x"

/-- Claim C1 (counterexample): for the two-part form whose first part
has empty text content, the concatenated output differs from the
canonical RFC 7578 layout, although every source yields its bytes
without error. -/
theorem encode_dropForm_ne_wireFormat :
    encode dropForm ≠ (wireFormat dropForm.boundary dropForm.parts, true) := by
  decide

end Multipart

namespace Multipart

/-- Claim C2 (counterexample): for the empty form with boundary B, the
first pull signals end of stream at once and the full emitted byte
sequence is empty rather than the final boundary. -/
theorem emptyForm_emits_nothing :
    poll_next (Body.fromForm (Form.mk [] "B")) = (.ready_none, ⟨2048, none, [], "B"⟩) ∧
    encode (Form.mk [] "B") = ([], true) ∧
    ([] : Bytes) ≠ finalBoundaryBytes "B" := by
  decide

/-- Claim C2 (amended): for a Form containing zero Parts the Encoder
signals end of stream on its very first pull, leaves its state
unchanged, and the full emitted byte sequence is empty: no final
boundary is ever written. -/
theorem encode_empty (β : String) :
    poll_next (Body.fromForm (Form.mk [] β)) = (.ready_none, Body.fromForm (Form.mk [] β)) ∧
    encode (Form.mk [] β) = ([], true) := by
  constructor
  · simp [Body.fromForm, poll_next, pollParts]
  · have h := pullAll_done 2048 β 2 (by omega)
    simpa [encode, Body.fromForm, bodyFuel, partsWeight] using h

/-- Number of positions at which the pattern occurs in the byte list. -/
def countOcc (pat l : Bytes) : Nat :=
  ((List.range (l.length + 1)).filter (fun i => pat.isPrefixOf (l.drop i))).length

/-- Claim C3 (failing input): dropForm has two parts whose sources both
yield their bytes without error, yet the emitted stream contains only
one occurrence of the non-terminal boundary pattern and no trace of the
block of the zero-byte first part; the terminal boundary occurs once. -/
theorem dropForm_block_count :
    dropForm.parts.length = 2 ∧
    countOcc (boundaryBytes dropForm.boundary ++ crlf) (encode dropForm).1 = 1 ∧
    countOcc (partBlock dropForm.boundary (Part.new (Inner.Text "") "a" none none))
      (encode dropForm).1 = 0 ∧
    countOcc (finalBoundaryBytes dropForm.boundary) (encode dropForm).1 = 1 := by
  decide

end Multipart

namespace Multipart

/-- A form with one reader-backed part whose source errors on its first
read and yields a byte on its second. -/
def errForm : Form := (Form.mk [] "B").add_reader "n" [.err, .ok ['x']]

/-- Claim C8 (counterexample): a pull that hits a content-read error
does not make the Encoder terminal: the very next pull on the resulting
state resumes reading the same source and emits a chunk. -/
theorem poll_after_error_emits :
    (poll_next (Body.fromForm errForm)).1 = .ready_err .ContentRead ∧
    (poll_next (poll_next (Body.fromForm errForm)).2).1 = .ready_chunk ['x'] := by
  decide

/-- Claim C8 (amended): once the final boundary has been emitted the
Encoder holds no active reader and no remaining parts, and in that
state every pull signals end of stream, emits nothing and leaves the
state unchanged; after a content-read error, by contrast, the state
keeps the remaining source, and a later pull resumes reading it and may
emit content. -/
theorem poll_next_done (n : Nat) (β : String) :
    poll_next ⟨n, none, [], β⟩ = (.ready_none, ⟨n, none, [], β⟩) := by
  simp [poll_next, pollParts]

/-- Every chunk produced by the fresh-part branch of the encoder is
nonempty: it always starts with the CRLF of a boundary line. -/
theorem pollParts_chunk_ne (n : Nat) (β : String) :
    ∀ ps c b', pollParts n β ps = (.ready_chunk c, b') → c ≠ [] := by
  intro ps
  induction ps with
  | nil => intro c b' h; simp [pollParts] at h
  | cons p rest ih =>
    intro c b' h
    cases hrd : readOnce (readerOf p.inner) with
    | error rd => simp [pollParts, hrd] at h
    | ok pr =>
      obtain ⟨d, rd⟩ := pr
      by_cases hd : d = []
      · subst hd
        by_cases hr : rest = []
        · subst hr
          simp [pollParts, hrd] at h
          obtain ⟨rfl, -⟩ := h
          simp [boundaryBytes, crlf]
        · simp [pollParts, hrd, hr] at h
          exact ih c b' h
      · simp [pollParts, hrd, hd] at h
        obtain ⟨rfl, -⟩ := h
        simp [boundaryBytes, crlf]

/-- Claim C10: every pull that succeeds and is not end of stream yields
exactly one chunk (one frame per poll, by construction of the result
type), and that chunk is nonempty: the boundary-and-header block, a
content read of positive count, or the final boundary contributes at
least one byte. -/
theorem poll_next_chunk_ne (b : Body) (c : Bytes) (b' : Body)
    (h : poll_next b = (.ready_chunk c, b')) : c ≠ [] := by
  obtain ⟨n, cur, ps, β⟩ := b
  cases cur with
  | none => exact pollParts_chunk_ne n β ps c b' h
  | some rd =>
    cases hrd : readOnce rd with
    | error rd' => simp [poll_next, hrd] at h
    | ok pr =>
      obtain ⟨d, rd'⟩ := pr
      by_cases hd : d = []
      · subst hd
        cases ps with
        | nil =>
          simp [poll_next, hrd] at h
          obtain ⟨rfl, -⟩ := h
          simp [finalBoundaryBytes, boundaryBytes, crlf]
        | cons p rest =>
          simp only [poll_next] at h
          rw [hrd] at h
          simp only [reduceCtorEq, if_pos rfl] at h
          exact pollParts_chunk_ne n β (p :: rest) c b' (by exact h)
      · simp [poll_next, hrd, hd] at h
        obtain ⟨rfl, -⟩ := h
        exact hd

/-- Witness for claim C10: a concrete mid-stream pull emits the
nonempty chunk consisting of the byte x. -/
theorem poll_next_chunk_ne_witness : (['x'] : Bytes) ≠ [] :=
  poll_next_chunk_ne ⟨2048, some [.ok ['x']], [], "B"⟩ ['x']
    ⟨2048, some [], [], "B"⟩ (by decide)

end Multipart

namespace Multipart

/-- Two strings with the same character data are equal. -/
theorem string_data_eq {a b : String} (h : a.data = b.data) : a = b := by
  cases a; cases b; simp_all

/-- Claim C4 (amended): for add_file_with_mime on a path that opens and
is a regular file, the content type of the queued part is: the
extension lookup result when the path has an extension and the lookup
matches; the octet-stream default when the path has an extension and
the lookup fails (the supplied mime is discarded); and the supplied
mime only when the path has no extension. -/
theorem add_file_with_mime_content_type (lookup : String → Option String)
    (form : Form) (name : String) (p : PathM) (m : String)
    (hopen : p.openOk = true) (hmeta : p.meta = .ok true) :
    ∃ pt, (Form.add_file_with_mime lookup form name p m).2.parts = form.parts ++ [pt] ∧
      pt.content_type = (match p.ext with
        | some e => (lookup e).getD "application/octet-stream"
        | none => m) ∧
      (Form.add_file_with_mime lookup form name p m).1 = .ok () := by
  refine ⟨Part.new (Inner.Read p.contents) name
    (match p.ext with | some e => lookup e | none => some m) (some p.pathStr), ?_, ?_, ?_⟩
  · simp [Form.add_file_with_mime, Form._add_file, hopen, hmeta]
  · cases hext : p.ext with
    | none => simp [Part.new, Inner.default_content_type]
    | some e =>
      cases hlk : lookup e with
      | none => simp [Part.new, Inner.default_content_type, hlk]
      | some t => simp [Part.new, hlk]
  · simp [Form.add_file_with_mime, Form._add_file, hopen, hmeta]

/-- A lookup that knows only the csv extension. -/
def csvLookup : String → Option String :=
  fun e => if e = "csv" then some "text/csv" else none

/-- A path model for a readable regular file named d.csv. -/
def csvPath : PathM := ⟨true, ⟨"", ""⟩, .ok true, some "csv", "d.csv", [.ok ['1']]⟩

/-- A path model for a readable regular file named f.bin whose extension
the lookup does not know. -/
def binPath : PathM := ⟨true, ⟨"", ""⟩, .ok true, some "bin", "f.bin", [.ok ['1']]⟩

/-- Witness for claim C4: the amended theorem applied to a csv file with
a matching lookup. -/
theorem add_file_with_mime_content_type_witness :
    ∃ pt, (Form.add_file_with_mime csvLookup (Form.mk [] "B") "n" csvPath "text/plain").2.parts
        = (Form.mk [] "B").parts ++ [pt] ∧
      pt.content_type = (match csvPath.ext with
        | some e => (csvLookup e).getD "application/octet-stream"
        | none => "text/plain") ∧
      (Form.add_file_with_mime csvLookup (Form.mk [] "B") "n" csvPath "text/plain").1 = .ok () :=
  add_file_with_mime_content_type csvLookup (Form.mk [] "B") "n" csvPath "text/plain" rfl rfl

/-- Claim C4 (counterexample): the path f.bin has an extension the
lookup fails to match, and the supplied mime text/csv is discarded: the
queued part carries the default application/octet-stream content type,
not the supplied one. -/
theorem add_file_with_mime_discards_supplied :
    ((Form.add_file_with_mime (fun _ => none) (Form.mk [] "B") "n" binPath "text/csv").2.parts.map
      Part.content_type) = ["application/octet-stream"] ∧
    "application/octet-stream" ≠ "text/csv" := by
  constructor
  · rfl
  · decide

/-- Claim C5: every failing add_file or add_file_with_mime call (any
supplied mime option) returns the error at the call and leaves the form
unmodified, so the rejected part is never queued and the part count is
unchanged: an open failure propagates the open error, a path that is
not a regular file yields the invalid-input error, and a metadata error
propagates. -/
theorem add_file_error_leaves_form (lookup : String → Option String) (form : Form)
    (name : String) (p : PathM) (mime : Option String) :
    (p.openOk = false → Form._add_file lookup form name p mime = (.error p.openErr, form)) ∧
    (p.openOk = true → p.meta = .ok false →
      Form._add_file lookup form name p mime = (.error invalidInputErr, form)) ∧
    (∀ e, p.openOk = true → p.meta = .error e →
      Form._add_file lookup form name p mime = (.error e, form)) := by
  refine ⟨?_, ?_, ?_⟩
  · intro h; simp [Form._add_file, h]
  · intro h1 h2; simp [Form._add_file, h1, h2]
  · intro e h1 h2; simp [Form._add_file, h1, h2]

/-- A path model for a directory: it opens, but its metadata says it is
not a regular file. -/
def dirPath : PathM := ⟨true, ⟨"", ""⟩, .ok false, none, "somedir", []⟩

/-- Witness for claim C5: adding a directory fails with the
invalid-input error and leaves the form unchanged. -/
theorem add_file_error_leaves_form_witness :
    Form._add_file (fun _ => none) okForm "n" dirPath none = (.error invalidInputErr, okForm) :=
  (add_file_error_leaves_form (fun _ => none) okForm "n" dirPath none).2.1 rfl rfl

/-- Claim C6: a part constructed without an explicit content type
defaults to text/plain for embedded text and application/octet-stream
for a byte-readable source; the parts queued by add_text, add_reader
and add_reader_file default accordingly, and a supplied explicit type
is used verbatim. -/
theorem part_default_content_type (inner : Inner) (name : String) (m : String)
    (filename : Option String) (form : Form) (text : String) (rd : Reader) (fname : String) :
    (Part.new inner name none filename).content_type = inner.default_content_type ∧
    (Inner.Text text).default_content_type = "text/plain" ∧
    (Inner.Read rd).default_content_type = "application/octet-stream" ∧
    (Part.new inner name (some m) filename).content_type = m ∧
    ((form.add_text name text).parts.map Part.content_type =
      form.parts.map Part.content_type ++ ["text/plain"]) ∧
    ((form.add_reader name rd).parts.map Part.content_type =
      form.parts.map Part.content_type ++ ["application/octet-stream"]) ∧
    ((form.add_reader_file name rd fname).parts.map Part.content_type =
      form.parts.map Part.content_type ++ ["application/octet-stream"]) := by
  refine ⟨rfl, rfl, rfl, rfl, ?_, ?_, ?_⟩ <;>
    simp [Form.add_text, Form.add_reader, Form.add_reader_file, Part.new,
      Inner.default_content_type]

/-- Joining a one-element list leaves the element. -/
theorem intercalate_one (s a : String) : String.intercalate s [a] = a := rfl

/-- Joining a two-element list inserts the separator once. -/
theorem intercalate_two (s a b : String) : String.intercalate s [a, b] = a ++ s ++ b := rfl

/-- Claim C7: the content disposition of every part is computed at
construction as the string form-data; name="<name>", with
; filename="<filename>" appended exactly when a filename is present;
the name and filename values are interpolated verbatim, with no
escaping or validation, whatever characters they hold. -/
theorem part_content_disposition (inner : Inner) (name : String) (m : Option String)
    (filename : Option String) :
    (Part.new inner name m filename).content_disposition =
      "form-data; name=\"" ++ name ++ "\"" ++
        (match filename with
         | some f => "; filename=\"" ++ f ++ "\""
         | none => "") := by
  cases filename with
  | none =>
    apply string_data_eq
    simp [Part.new, intercalate_one, String.data_append]
  | some f =>
    apply string_data_eq
    simp [Part.new, intercalate_two, String.data_append]

end Multipart

namespace Multipart

/-- An HTTP-level error of the request-builder collaborator. -/
abbrev HttpErr := String

/-- The outgoing request: its header map and its streaming body. -/
structure Request where
  headers : List (String × String)
  body : Body
deriving DecidableEq

/-- Modelled from the spec (section 1 and 6): the external
request-builder collaborator, which is out of scope of the source.  It
accumulates a header list or the first rejection error; which header
values it rejects is the collaborator policy, passed as a function. -/
structure Builder where
  hstate : Except HttpErr (List (String × String))
deriving DecidableEq

/-- The header operation of the collaborator: a rejected header or an
earlier error poisons the builder, an accepted one is appended. -/
def Builder.header (valid : String → String → Option HttpErr) (b : Builder)
    (k v : String) : Builder :=
  match b.hstate with
  | .error e => ⟨.error e⟩
  | .ok hs =>
    match valid k v with
    | some e => ⟨.error e⟩
    | none => ⟨.ok (hs ++ [(k, v)])⟩

/-- The body operation of the collaborator: propagates a stored error,
otherwise produces the request with the accumulated headers. -/
def Builder.body (b : Builder) (bd : Body) : Except HttpErr Request :=
  match b.hstate with
  | .error e => .error e
  | .ok hs => .ok ⟨hs, bd⟩

/-- The name of the Content-Type header. -/
def CONTENT_TYPE : String := "content-type"

/-- The Content-Type header value set_body builds for a boundary. -/
def multipartHeader (boundary : String) : String :=
  "multipart/form-data; boundary=\"" ++ boundary ++ "\""

/-- Form::set_body of the source: attach the multipart Content-Type
header and install the encoder built from the form as the body. -/
def Form.set_body (valid : String → String → Option HttpErr) (form : Form)
    (req : Builder) : Except HttpErr Request :=
  let header := multipartHeader form.boundary
  (req.header valid CONTENT_TYPE header).body (Body.fromForm form)

/-- Claim C9: set_body attaches to the request exactly the header
Content-Type: multipart/form-data; boundary="<boundary>" with the
boundary of the form in double quotes, installs the Encoder built from
the consumed Form as the request body, and fails only when the builder
collaborator rejects the header (or already failed), propagating that
error unchanged. -/
theorem set_body_spec (valid : String → String → Option HttpErr) (form : Form)
    (hs : List (String × String)) :
    (Form.set_body valid form ⟨.ok hs⟩ =
      match valid CONTENT_TYPE (multipartHeader form.boundary) with
      | some e => .error e
      | none => .ok ⟨hs ++ [(CONTENT_TYPE, multipartHeader form.boundary)],
          Body.fromForm form⟩) ∧
    (∀ e, Form.set_body valid form ⟨.error e⟩ = .error e) := by
  constructor
  · cases hv : valid CONTENT_TYPE (multipartHeader form.boundary) with
    | none => simp [Form.set_body, Builder.header, Builder.body, hv]
    | some e => simp [Form.set_body, Builder.header, Builder.body, hv]
  · intro e
    simp [Form.set_body, Builder.header, Builder.body]

end Multipart
